import Mathlib

/-!
Verification of the crossword CSP core in `src/AI/Lecture-3/Crossword/generate.py`
(class `CrosswordCreator`): node consistency, arc consistency (AC-3), and
backtracking search.

Conventions of the embedding:
* Python `set` objects are embedded as duplicate-free `List`s; the list order
  stands for the (implementation-defined) iteration order of the set.
* Python `dict` objects are embedded as association lists in insertion order.
* The mutable field `self.domains` is threaded explicitly as a value of type
  `DStore`.
* `set.remove` (which raises `KeyError` on an absent element) is embedded in
  the `Except` monad; all other operations used by the core are total.
* Word characters are embedded as `List Char`; Python's `w[i]` is embedded as
  `List.getD i` (the indices reaching it are in range for well-formed models,
  see `Crossword.WF`).
-/

namespace CrosswordCSP

/-- A word of the vocabulary (a Python string). -/
abbrev Word := List Char

/-- Modelled from the spec: the `Variable` class of the external puzzle model
(`crossword.py` is out of the repository's core, spec §3): an immutable
identity made of row, column, orientation and length, equal iff all four
fields match. -/
structure Variable where
  row : Nat
  col : Nat
  dir : Bool
  length : Nat
deriving DecidableEq, Repr

/-- Modelled from the spec: the external puzzle model (spec §6): a set of
variables, a vocabulary of candidate words, and for each ordered pair of
variables an optional overlap-index pair.  `vars` embeds `variables()`. -/
structure Crossword where
  vars : List Variable
  words : List Word
  overlaps : Variable → Variable → Option (Nat × Nat)

/-- Modelled from the spec: `neighbors(v)`, the set of variables sharing an
overlap with `v` (spec §6), as the sublist of `vars`. -/
def Crossword.neighbors (M : Crossword) (x : Variable) : List Variable :=
  M.vars.filter (fun y => y ≠ x ∧ (M.overlaps x y).isSome)

/-- Well-formedness of a puzzle model, from spec §3: variables and vocabulary
are sets (no duplicates); a variable never overlaps itself; the overlap map is
symmetric with swapped indices; overlap indices are in range. -/
structure Crossword.WF (M : Crossword) : Prop where
  varsNodup : M.vars.Nodup
  wordsNodup : M.words.Nodup
  selfNone : ∀ x, M.overlaps x x = none
  symm : ∀ x y i j, M.overlaps x y = some (i, j) → M.overlaps y x = some (j, i)
  fstLt : ∀ x y i j, M.overlaps x y = some (i, j) → i < x.length
  sndLt : ∀ x y i j, M.overlaps x y = some (i, j) → j < y.length

/-- The domain store `self.domains`: per variable, the list of still-possible
words.  Only the values at members of `M.vars` are meaningful. -/
abbrev DStore := Variable → List Word

/-- Pointwise update of the store at one variable. -/
def DStore.update (d : DStore) (x : Variable) (l : List Word) : DStore :=
  fun v => if v = x then l else d v

/-- `self.domains = {var: self.crossword.words.copy() for var in ...}`
(`CrosswordCreator.__init__`). -/
def initDomains (M : Crossword) : DStore := fun _ => M.words

/-- Python's `set.remove`: erase the element, raising `KeyError` when it is
absent. -/
def setRemove (l : List Word) (w : Word) : Except Unit (List Word) :=
  if w ∈ l then .ok (l.erase w) else .error ()

/-- The inner loop of `enforce_node_consistency` for one variable: for every
vocabulary word of the wrong length, `self.domains[var].remove(word)`. -/
def encVar (M : Crossword) (v : Variable) (l : List Word) :
    Except Unit (List Word) :=
  M.words.foldlM
    (fun acc w => if w.length ≠ v.length then setRemove acc w else .ok acc) l

/-- `CrosswordCreator.enforce_node_consistency` (generate.py:96-108). -/
def enforce_node_consistency (M : Crossword) (d : DStore) :
    Except Unit DStore :=
  M.vars.foldlM (fun st v => (encVar M v (st v)).map (st.update v)) d

/-- `CrosswordCreator.revise` (generate.py:111-138).  Returns the flag
`revised` and the new store.  Note the source iterates over `self.domains[y]`
and subtracts the collected words from `self.domains[x]`. -/
def revise (M : Crossword) (d : DStore) (x y : Variable) : Bool × DStore :=
  if y ∈ M.neighbors x then
    let cells := (M.overlaps x y).getD (0, 0)
    let out_ruled := (d y).filter
      (fun word_y =>
        ¬ (d x).any (fun word_x =>
          word_y.getD cells.2 ' ' = word_x.getD cells.1 ' '))
    (decide (out_ruled ≠ []),
     d.update x ((d x).filter (fun w => w ∉ out_ruled)))
  else
    (false, d)

/-- The arc list built by `ac3` when called with `None` or an empty list
(`if not arcs:` treats both alike): all ordered pairs of distinct variables,
in nested-loop order over the keys of `self.domains` (generate.py:149-159). -/
def allArcs (M : Crossword) : List (Variable × Variable) :=
  M.vars.flatMap (fun var1 =>
    (M.vars.filter (fun var2 => var1 ≠ var2)).map (fun var2 => (var1, var2)))

/-- The `while arcs:` loop of `CrosswordCreator.ac3` (generate.py:161-177),
with explicit fuel; `arcs.pop()` takes the last element, and re-enqueued arcs
`(Z, x)` are appended at the end. -/
def ac3Loop (M : Crossword) : Nat → List (Variable × Variable) → DStore →
    Option (Bool × DStore)
  | 0, _, _ => none
  | fuel + 1, arcs, d =>
    match arcs.getLast? with
    | none => some (true, d)
    | some (x, y) =>
      let rest := arcs.dropLast
      let r := revise M d x y
      if r.1 then
        if r.2 x = [] then some (false, r.2)
        else
          ac3Loop M fuel
            (rest ++ ((M.neighbors x).filter (fun z => z ≠ y)).map
              (fun z => (z, x))) r.2
      else ac3Loop M fuel rest r.2

/-- `CrosswordCreator.ac3` (generate.py:140-177).  `[]` stands for Python's
`None` as well: `if not arcs:` rebuilds the full arc list in both cases. -/
def ac3 (M : Crossword) (fuel : Nat) (arcs : List (Variable × Variable))
    (d : DStore) : Option (Bool × DStore) :=
  ac3Loop M fuel (if arcs = [] then allArcs M else arcs) d

/-- A partial assignment, a Python dict in insertion order with unique keys. -/
abbrev Assignment := List (Variable × Word)

/-- Dict lookup `assignment[v]` / `v in assignment`. -/
def alookup (a : Assignment) (v : Variable) : Option Word :=
  match a with
  | [] => none
  | (u, w) :: rest => if u = v then some w else alookup rest v

/-- Dict deletion `del assignment[v]`. -/
def adelete (a : Assignment) (v : Variable) : Assignment :=
  a.filter (fun p => p.1 ≠ v)

/-- `CrosswordCreator.assignment_complete` (generate.py:180-191): every key of
`self.domains` (= every variable of the model) is assigned. -/
def assignment_complete (M : Crossword) (a : Assignment) : Bool :=
  M.vars.all (fun var => (alookup a var).isSome)

/-- `CrosswordCreator.consistent` (generate.py:193-221): assigned words are
pairwise distinct (`len(set(values)) == len(assignment)`), each has its
variable's length, and every assigned pair of neighbors agrees at the
registered overlap indices. -/
def consistent (M : Crossword) (a : Assignment) : Bool :=
  if (a.map Prod.snd).dedup.length ≠ a.length then false
  else
    a.all (fun p =>
      decide (p.2.length = p.1.length) &&
      (M.neighbors p.1).all (fun word2 =>
        match alookup a word2 with
        | none => true
        | some w2 =>
          let cells := (M.overlaps p.1 word2).getD (0, 0)
          decide (p.2.getD cells.1 ' ' = w2.getD cells.2 ' ')))

/-- One iteration of the outer loop of `order_domain_values`
(generate.py:236-258) for a single `value`.  The guard
`if value in assignment: continue` never fires: `value` is a string, the dict
keys are `Variable`s, and Python's `in` compares them unequal.  The inner loop
body reads `self.crossword.overlap[value][neighbor]`, but the `Crossword`
class has no attribute `overlap` (only `overlaps`), so the first time the body
runs the call raises `AttributeError`; otherwise the trailing loop adds 1 for
every variable whose domain holds `value`. -/
def odvEntry (M : Crossword) (d : DStore) (var : Variable) (value : Word) :
    Except String Nat :=
  if (M.neighbors var).any (fun neighbor => d neighbor ≠ []) then
    .error "AttributeError: Crossword object has no attribute overlap"
  else
    .ok (M.vars.filter (fun v => value ∈ d v)).length

/-- `CrosswordCreator.order_domain_values` (generate.py:225-261): build the
count dict in domain order, then `sorted(values, key=...)` ascending by count.
Python's sort is stable, and a stable sort by a total preorder is uniquely
determined, so the (stable) insertion sort embeds it faithfully. -/
def order_domain_values (M : Crossword) (d : DStore) (var : Variable)
    (_assignment : Assignment) : Except String (List Word) := do
  let entries ← (d var).foldlM
    (fun acc value => do
      let c ← odvEntry M d var value
      pure (acc ++ [(value, c)]))
    ([] : List (Word × Nat))
  pure ((entries.insertionSort (fun p q => p.2 ≤ q.2)).map Prod.fst)

/-- `CrosswordCreator.select_unassigned_variable` (generate.py:265-276):
`sorted(unassigned, key=lambda x: (len(domains[x]), -degree(x)))[0]`.  The
sort key is embedded as its `≤` relation (a stable sort by a total preorder
is unique, so insertion sort embeds Python's stable `sorted`); `none`
corresponds to the (unreachable when the assignment is incomplete)
`IndexError` on `[0]`. -/
def select_unassigned_variable (M : Crossword) (d : DStore) (a : Assignment) :
    Option Variable :=
  let unassigned := M.vars.filter (fun x => (alookup a x).isNone)
  (unassigned.insertionSort (fun x y =>
    (d x).length < (d y).length ∨
      ((d x).length = (d y).length ∧
        (M.neighbors y).length ≤ (M.neighbors x).length))).head?

/-- The `for value in self.domains[var]:` loop of `backtrack`
(generate.py:295-311), iterating over the domain as read at loop entry.
`recur` stands for the recursive `self.backtrack(assignment)` call (tied in
`backtrack` below), `fuel` is the fuel handed to the inner `self.ac3(...)`
call, whose boolean result the source discards (only its mutation of the
store is kept); `if result:` treats both `None` and an empty dict as
failure. -/
def btLoop (M : Crossword) (fuel : Nat)
    (recur : DStore → Assignment → Option (Option Assignment × DStore)) :
    DStore → Assignment → Variable → List Word →
      Option (Option Assignment × DStore)
  | d, _, _, [] => some (none, d)
  | d, a, var, value :: values =>
    if consistent M (a ++ [(var, value)]) then
      match ac3 M fuel ((M.neighbors var).map (fun other => (other, var))) d
        with
      | none => none
      | some (_, d1) =>
        match recur d1 (a ++ [(var, value)]) with
        | none => none
        | some (some result, d2) =>
          if result ≠ [] then some (some result, d2)
          else
            btLoop M fuel recur d2 (adelete (a ++ [(var, value)]) var) var
              values
        | some (none, d2) =>
          btLoop M fuel recur d2 (adelete (a ++ [(var, value)]) var) var
            values
    else btLoop M fuel recur d (adelete (a ++ [(var, value)]) var) var values

/-- `CrosswordCreator.backtrack` (generate.py:279-313), with explicit fuel for
the recursion; returns the result together with the (mutated) domain store.
An exhausted fuel yields `none`; a returned value is a faithful run. -/
def backtrack (M : Crossword) : Nat → DStore → Assignment →
    Option (Option Assignment × DStore)
  | 0, _, _ => none
  | fuel + 1, d, a =>
    if assignment_complete M a then some (some a, d)
    else
      match select_unassigned_variable M d a with
      | none => some (none, d)
      | some var =>
        btLoop M fuel (fun d' a' => backtrack M fuel d' a') d a var (d var)

/-- `CrosswordCreator.solve` (generate.py:88-94): node consistency, full
AC-3 (whose boolean result is ignored), then backtracking from the empty
assignment.  `none` covers both exhausted fuel and a raised exception
(`enforce_node_consistency` never raises on a well-formed model's first
pass, see `enc_initDomains`). -/
def solve (M : Crossword) (fuel : Nat) :
    Option (Option Assignment × DStore) :=
  match enforce_node_consistency M (initDomains M) with
  | .error _ => none
  | .ok d1 =>
    match ac3 M fuel [] d1 with
    | none => none
    | some (_, d2) => backtrack M fuel d2 []

/-! ### The AC-3 queue process described by the spec

`AC3Trace M arcs d b d'` is the work-queue process of spec §4.2: repeatedly
pop the last arc `(x, y)` and call `revise`; if a revision was reported and
the resulting `domain(x)` is empty, fail immediately — returning the store as
it stands, processing no further arc; otherwise re-enqueue `(z, x)` for the
other neighbors `z` of `x` when a revision was reported; succeed exactly when
the queue drains. -/
inductive AC3Trace (M : Crossword) :
    List (Variable × Variable) → DStore → Bool → DStore → Prop
  | drain (d : DStore) : AC3Trace M [] d true d
  | emptyFail (front : List (Variable × Variable)) (x y : Variable)
      (d : DStore) :
      (revise M d x y).1 = true → (revise M d x y).2 x = [] →
      AC3Trace M (front ++ [(x, y)]) d false (revise M d x y).2
  | stepRevised (front : List (Variable × Variable)) (x y : Variable)
      (d : DStore) (b : Bool) (d'' : DStore) :
      (revise M d x y).1 = true → (revise M d x y).2 x ≠ [] →
      AC3Trace M
        (front ++ ((M.neighbors x).filter (fun z => z ≠ y)).map
          (fun z => (z, x)))
        (revise M d x y).2 b d'' →
      AC3Trace M (front ++ [(x, y)]) d b d''
  | stepNoRevision (front : List (Variable × Variable)) (x y : Variable)
      (d : DStore) (b : Bool) (d'' : DStore) :
      (revise M d x y).1 = false →
      AC3Trace M front (revise M d x y).2 b d'' →
      AC3Trace M (front ++ [(x, y)]) d b d''

/-! ### Concrete puzzle models used in the counterexamples and witnesses -/

/-- A length-2 across slot. -/
def varX : Variable := ⟨0, 0, false, 2⟩

/-- A length-2 down slot. -/
def varY : Variable := ⟨0, 1, true, 2⟩

/-- A length-5 slot whose length no vocabulary word matches. -/
def varV5 : Variable := ⟨3, 3, false, 5⟩

/-- A length-3 slot (used in the diverging model). -/
def varZ3 : Variable := ⟨5, 0, false, 3⟩

/-- A length-4 slot (used in the diverging model). -/
def varW4 : Variable := ⟨6, 0, false, 4⟩

def wAB : Word := ['a', 'b']
def wCA : Word := ['c', 'a']
def wCD : Word := ['c', 'd']
def wDD : Word := ['d', 'd']
def wAA : Word := ['a', 'a']
def wC : Word := ['c']
def wBB : Word := ['b', 'b']
def wCCC : Word := ['c', 'c', 'c']
def wDDDD : Word := ['d', 'd', 'd', 'd']

/-- No two variables overlap. -/
def noOv : Variable → Variable → Option (Nat × Nat) := fun _ _ => none

/-- `varX` and `varY` cross with `X[0] == Y[1]`. -/
def ov01 : Variable → Variable → Option (Nat × Nat) := fun u v =>
  if u = varX ∧ v = varY then some (0, 1)
  else if u = varY ∧ v = varX then some (1, 0) else none

/-- `varX` and `varY` cross with `X[0] == Y[0]`. -/
def ov00 : Variable → Variable → Option (Nat × Nat) := fun u v =>
  if u = varX ∧ v = varY then some (0, 0)
  else if u = varY ∧ v = varX then some (0, 0) else none

/-- Counterexample model for completeness: vocabulary `{ab, ca}`, constraint
`X[0] == Y[1]`; the unique solution is `X = ab`, `Y = ca`. -/
def M2cex : Crossword := ⟨[varX, varY], [wAB, wCA], ov01⟩

/-- Store exhibiting the missing restore: `domain(X) = {ab}`,
`domain(Y) = {ab, dd}`. -/
def d4cex : DStore := fun v =>
  if v = varX then [wAB] else if v = varY then [wAB, wDD] else []

/-- Model for the value-ordering claim: vocabulary `{aa, ab}`, constraint
`X[0] == Y[0]`. -/
def M5cex : Crossword := ⟨[varX, varY], [wAA, wAB], ov00⟩

/-- Full domains for `M5cex`. -/
def d5cex : DStore := fun _ => [wAA, wAB]

/-- One length-2 variable with vocabulary `{ab, c}`: the first node
consistency pass removes `c`. -/
def M6cex : Crossword := ⟨[varX], [wAB, wC], noOv⟩

/-- Model for the `revise` claim: constraint `X[0] == Y[0]`. -/
def M3cex : Crossword := ⟨[varX, varY], [wAB, wCD], ov00⟩

/-- Store for the `revise` claim: `domain(X) = {ab}`, `domain(Y) = {cd}`. -/
def d3cex : DStore := fun v => if v = varX then [wAB] else [wCD]

/-- Solvable one-variable model. -/
def M1w : Crossword := ⟨[varX], [wAB], noOv⟩

/-- Scenario-B model: a length-5 variable while the vocabulary has only
length-2 words. -/
def M9w : Crossword := ⟨[varX, varV5], [wAB, wCA], noOv⟩

/-- Triangle overlaps between `varX`, `varZ3`, `varW4`, always at character
`0` of both words; `varV5` is isolated. -/
def ovTri : Variable → Variable → Option (Nat × Nat) := fun u v =>
  if u = varX ∧ v = varZ3 then some (0, 0)
  else if u = varZ3 ∧ v = varX then some (0, 0)
  else if u = varX ∧ v = varW4 then some (0, 0)
  else if u = varW4 ∧ v = varX then some (0, 0)
  else if u = varZ3 ∧ v = varW4 then some (0, 0)
  else if u = varW4 ∧ v = varZ3 then some (0, 0)
  else none

/-- A model on which the AC-3 queue never drains: the three crossing slots
have pairwise different lengths, so the buggy `revise` keeps reporting
revisions (subtracting words of the other domain, which are never present)
without ever changing a domain, and the re-enqueued arcs cycle forever. -/
def Mdiv : Crossword :=
  ⟨[varV5, varX, varZ3, varW4], [wBB, wCCC, wDDDD], ovTri⟩

/-- The store reached on `Mdiv` after node consistency. -/
def dDiv : DStore :=
  ((((initDomains Mdiv).update varV5 []).update varX [wBB]).update varZ3
    [wCCC]).update varW4 [wDDDD]

/-! ### Basic lemmas about the embedded operations -/

theorem DStore.update_self (d : DStore) (x : Variable) (l : List Word) :
    (d.update x l) x = l := by
  simp [DStore.update]

theorem DStore.update_other (d : DStore) (x : Variable) (l : List Word)
    {v : Variable} (h : v ≠ x) : (d.update x l) v = d v := by
  simp [DStore.update, h]

theorem alookup_mem {a : Assignment} {v : Variable} {w : Word}
    (h : alookup a v = some w) : (v, w) ∈ a := by
  induction a with
  | nil => simp [alookup] at h
  | cons p rest ih =>
    obtain ⟨u, wu⟩ := p
    rw [alookup] at h
    by_cases hu : u = v
    · subst hu
      simp at h
      subst h
      exact List.mem_cons_self _ _
    · rw [if_neg hu] at h
      exact List.mem_cons_of_mem _ (ih h)

/-- `revise(x, y)` writes only to `self.domains[x]`. -/
theorem revise_store_other (M : Crossword) (d : DStore) (x y : Variable)
    {v : Variable} (hv : v ≠ x) : (revise M d x y).2 v = d v := by
  by_cases h : y ∈ M.neighbors x
  · simp only [revise, if_pos h]
    exact DStore.update_other _ _ _ hv
  · simp only [revise, if_neg h]

/-- `revise(x, y)` only removes words: each domain in the new store is a
sublist-subset of the old one. -/
theorem revise_store_subset (M : Crossword) (d : DStore) (x y v : Variable) :
    (revise M d x y).2 v ⊆ d v := by
  by_cases hv : v = x
  · subst hv
    by_cases h : y ∈ M.neighbors v
    · simp only [revise, if_pos h, DStore.update_self]
      exact fun w hw => List.mem_of_mem_filter hw
    · simp only [revise, if_neg h]
      exact fun _ hw => hw
  · rw [revise_store_other M d x y hv]
    exact List.Subset.refl _

/-- Monotonicity of the AC-3 work loop: every returned store is pointwise a
subset of the input store. -/
theorem ac3Loop_subset (M : Crossword) :
    ∀ (fuel : Nat) (arcs : List (Variable × Variable)) (d : DStore)
      (b : Bool) (d' : DStore),
      ac3Loop M fuel arcs d = some (b, d') → ∀ v, d' v ⊆ d v := by
  intro fuel
  induction fuel with
  | zero => intro arcs d b d' h; simp [ac3Loop] at h
  | succ n ih =>
    intro arcs d b d' h v
    rw [ac3Loop] at h
    match harcs : arcs.getLast? with
    | none =>
      rw [harcs] at h
      simp at h
      rw [← h.2]
      exact List.Subset.refl _
    | some (x, y) =>
      rw [harcs] at h
      simp only at h
      by_cases hr : (revise M d x y).1
      · rw [if_pos hr] at h
        by_cases he : (revise M d x y).2 x = []
        · rw [if_pos he] at h
          simp at h
          rw [← h.2]
          exact revise_store_subset M d x y v
        · rw [if_neg he] at h
          exact (ih _ _ _ _ h v).trans (revise_store_subset M d x y v)
      · rw [if_neg hr] at h
        exact (ih _ _ _ _ h v).trans (revise_store_subset M d x y v)

/-- Monotonicity of `ac3`, with or without an explicit arc list. -/
theorem ac3_subset (M : Crossword) (fuel : Nat)
    (arcs : List (Variable × Variable)) (d : DStore) (b : Bool) (d' : DStore)
    (h : ac3 M fuel arcs d = some (b, d')) : ∀ v, d' v ⊆ d v :=
  ac3Loop_subset M fuel _ d b d' h

/-- Every terminating run of the embedded loop is a run of the queue
process. -/
theorem ac3Loop_toTrace (M : Crossword) :
    ∀ (fuel : Nat) (arcs : List (Variable × Variable)) (d : DStore)
      (b : Bool) (d' : DStore),
      ac3Loop M fuel arcs d = some (b, d') → AC3Trace M arcs d b d' := by
  intro fuel
  induction fuel with
  | zero => intro arcs d b d' h; simp [ac3Loop] at h
  | succ n ih =>
    intro arcs d b d' h
    rw [ac3Loop] at h
    match harcs : arcs.getLast? with
    | none =>
      rw [harcs] at h
      simp at h
      rw [List.getLast?_eq_none_iff] at harcs
      subst harcs
      rw [h.1, ← h.2]
      exact AC3Trace.drain d
    | some (x, y) =>
      rw [harcs] at h
      simp only at h
      have hsplit : arcs = arcs.dropLast ++ [(x, y)] := by
        have hne : arcs ≠ [] := by
          intro hc; rw [hc] at harcs; simp at harcs
        have := List.dropLast_append_getLast hne
        rw [List.getLast?_eq_getLast arcs hne] at harcs
        simp at harcs
        rw [harcs] at this
        exact this.symm
      by_cases hr : (revise M d x y).1
      · rw [if_pos hr] at h
        by_cases he : (revise M d x y).2 x = []
        · rw [if_pos he] at h
          simp at h
          rw [h.1, ← h.2, hsplit]
          exact AC3Trace.emptyFail _ x y d hr he
        · rw [if_neg he] at h
          rw [hsplit]
          exact AC3Trace.stepRevised _ x y d b d' hr he (ih _ _ _ _ h)
      · rw [if_neg hr] at h
        rw [hsplit]
        refine AC3Trace.stepNoRevision _ x y d b d' (by simpa using hr) ?_
        exact ih _ _ _ _ h

/-- Every run of the queue process is reached by the embedded loop with
enough fuel. -/
theorem trace_toAc3Loop (M : Crossword) :
    ∀ (arcs : List (Variable × Variable)) (d : DStore) (b : Bool)
      (d' : DStore), AC3Trace M arcs d b d' →
      ∃ fuel, ac3Loop M fuel arcs d = some (b, d') := by
  intro arcs d b d' h
  induction h with
  | drain d => exact ⟨1, by simp [ac3Loop]⟩
  | emptyFail front x y d hr he =>
    refine ⟨1, ?_⟩
    rw [ac3Loop, List.getLast?_concat]
    simp only [hr, if_true, he, if_pos rfl]
  | stepRevised front x y d b d'' hr he _ ihh =>
    obtain ⟨fuel, hf⟩ := ihh
    refine ⟨fuel + 1, ?_⟩
    rw [ac3Loop, List.getLast?_concat]
    simp only [hr, if_true, if_neg he, List.dropLast_concat]
    exact hf
  | stepNoRevision front x y d b d'' hr _ ihh =>
    obtain ⟨fuel, hf⟩ := ihh
    refine ⟨fuel + 1, ?_⟩
    rw [ac3Loop, List.getLast?_concat]
    simp only [hr, if_false, List.dropLast_concat, Bool.false_eq_true]
    exact hf

/-- A failing run of the AC-3 loop always exhibits an emptied domain. -/
theorem ac3Loop_false_empty (M : Crossword) :
    ∀ (fuel : Nat) (arcs : List (Variable × Variable)) (d : DStore)
      (d' : DStore), ac3Loop M fuel arcs d = some (false, d') →
      ∃ x, d' x = [] := by
  intro fuel
  induction fuel with
  | zero => intro arcs d d' h; simp [ac3Loop] at h
  | succ n ih =>
    intro arcs d d' h
    rw [ac3Loop] at h
    match harcs : arcs.getLast? with
    | none => rw [harcs] at h; simp at h
    | some (x, y) =>
      rw [harcs] at h
      simp only at h
      by_cases hr : (revise M d x y).1
      · rw [if_pos hr] at h
        by_cases he : (revise M d x y).2 x = []
        · rw [if_pos he] at h
          simp at h
          exact ⟨x, by rw [← h]; exact he⟩
        · rw [if_neg he] at h
          exact ih _ _ _ h
      · rw [if_neg hr] at h
        exact ih _ _ _ h

/-! ### Node consistency computes a length filter (first run) -/

theorem encVar_eq (v : Variable) :
    ∀ (ws acc : List Word), ws.Nodup → acc.Nodup →
      (∀ w ∈ ws, w.length ≠ v.length → w ∈ acc) →
      (ws.foldlM
        (fun acc w =>
          if w.length ≠ v.length then setRemove acc w else .ok acc) acc : Except Unit (List Word))
        = .ok (acc.filter
            (fun w => decide (w.length = v.length) || decide (w ∉ ws))) := by
  intro ws
  induction ws with
  | nil =>
    intro acc _ _ _
    simp [List.foldlM_nil]
    rfl
  | cons w ws ih =>
    intro acc hws hacc hmem
    rw [List.foldlM_cons]
    by_cases hl : w.length ≠ v.length
    · rw [if_pos hl]
      have hw_acc : w ∈ acc := hmem w (List.mem_cons_self w ws) hl
      rw [setRemove, if_pos hw_acc]
      have hbind :
          ((Except.ok (acc.erase w) : Except Unit (List Word)) >>= fun b =>
            ws.foldlM (fun acc w =>
              if w.length ≠ v.length then setRemove acc w else .ok acc) b)
          = ws.foldlM (fun acc w =>
              if w.length ≠ v.length then setRemove acc w else .ok acc)
              (acc.erase w) := rfl
      rw [hbind, ih (acc.erase w) hws.of_cons (hacc.erase w) ?side]
      case side =>
        intro u hu hul
        have hu_acc : u ∈ acc := hmem u (List.mem_cons_of_mem w hu) hul
        have hne : u ≠ w := by
          intro he
          exact (List.nodup_cons.mp hws).1 (he ▸ hu)
        exact (List.mem_erase_of_ne hne).mpr hu_acc
      · congr 1
        rw [hacc.erase_eq_filter w, List.filter_filter]
        refine List.filter_congr ?_
        intro u _
        by_cases hu : u = w
        · subst hu
          simp [hl]
        · simp [hu, List.mem_cons]
    · rw [if_neg hl]
      have hbind :
          ((Except.ok acc : Except Unit (List Word)) >>= fun b =>
            ws.foldlM (fun acc w =>
              if w.length ≠ v.length then setRemove acc w else .ok acc) b)
          = ws.foldlM (fun acc w =>
              if w.length ≠ v.length then setRemove acc w else .ok acc)
              acc := rfl
      rw [hbind, ih acc hws.of_cons hacc ?side2]
      case side2 =>
        intro u hu hul
        exact hmem u (List.mem_cons_of_mem w hu) hul
      · congr 1
        refine List.filter_congr ?_
        intro u _
        by_cases hu : u = w
        · subst hu
          have hul : u.length = v.length := of_not_not hl
          rw [hul]
          simp
        · simp [hu, List.mem_cons]

theorem encVar_words (M : Crossword) (v : Variable) (h : M.words.Nodup) :
    encVar M v M.words
      = .ok (M.words.filter (fun w => decide (w.length = v.length))) := by
  rw [encVar, encVar_eq v M.words M.words h h (fun w hw _ => hw)]
  congr 1
  refine List.filter_congr ?_
  intro u hu
  simp [hu]

theorem enc_fold (M : Crossword) (hw : M.words.Nodup) :
    ∀ (vs : List Variable) (st : DStore), vs.Nodup →
      (∀ v ∈ vs, st v = M.words) →
      ∃ d1,
        (vs.foldlM (fun st v => (encVar M v (st v)).map (st.update v)) st
          : Except Unit DStore) = .ok d1
        ∧ (∀ v ∈ vs,
            d1 v = M.words.filter (fun w => decide (w.length = v.length)))
        ∧ (∀ v, v ∉ vs → d1 v = st v) := by
  intro vs
  induction vs with
  | nil =>
    intro st _ _
    exact ⟨st, rfl, by simp, fun v _ => rfl⟩
  | cons v vs ih =>
    intro st hnd hst
    rw [List.foldlM_cons, hst v (List.mem_cons_self v vs),
      encVar_words M v hw]
    have hbind :
        ((Except.map (st.update v)
            (.ok (M.words.filter (fun w => decide (w.length = v.length))))
          : Except Unit DStore) >>= fun b =>
          vs.foldlM (fun st v => (encVar M v (st v)).map (st.update v)) b)
        = vs.foldlM (fun st v => (encVar M v (st v)).map (st.update v))
            (st.update v
              (M.words.filter (fun w => decide (w.length = v.length)))) := rfl
    rw [hbind]
    have hstinv : ∀ u ∈ vs,
        (st.update v (M.words.filter (fun w => decide (w.length = v.length))))
          u = M.words := by
      intro u hu
      have hne : u ≠ v := by
        intro he
        exact (List.nodup_cons.mp hnd).1 (he ▸ hu)
      rw [DStore.update_other _ _ _ hne]
      exact hst u (List.mem_cons_of_mem v hu)
    obtain ⟨d1, hrun, hmem, hout⟩ := ih
      (st.update v (M.words.filter (fun w => decide (w.length = v.length))))
      hnd.of_cons hstinv
    refine ⟨d1, hrun, ?_, ?_⟩
    · intro u hu
      rcases List.mem_cons.mp hu with he | hm
      · subst he
        have hvnot : u ∉ vs := (List.nodup_cons.mp hnd).1
        rw [hout u hvnot, DStore.update_self]
      · exact hmem u hm
    · intro u hu
      have hunv : u ∉ vs := fun hc => hu (List.mem_cons_of_mem v hc)
      have hune : u ≠ v := fun hc => hu (hc ▸ List.mem_cons_self v vs)
      rw [hout u hunv, DStore.update_other _ _ _ hune]

/-- On a well-formed model, the first `enforce_node_consistency` pass succeeds
and leaves each variable's domain the length filter of the vocabulary. -/
theorem enc_initDomains (M : Crossword) (hw : M.words.Nodup)
    (hv : M.vars.Nodup) :
    ∃ d1, enforce_node_consistency M (initDomains M) = .ok d1
      ∧ ∀ v ∈ M.vars,
          d1 v = M.words.filter (fun w => decide (w.length = v.length)) := by
  obtain ⟨d1, hrun, hmem, _⟩ :=
    enc_fold M hw M.vars (initDomains M) hv (fun _ _ => rfl)
  exact ⟨d1, hrun, hmem⟩

/-! ### Soundness of the backtracking search -/

theorem consistent_nil (M : Crossword) : consistent M [] = true := rfl

/-- Every assignment returned through the value loop has passed both the
completeness check and the consistency check, provided the recursive call
behaves that way. -/
theorem btLoop_sound (M : Crossword) (fuel : Nat)
    (recur : DStore → Assignment → Option (Option Assignment × DStore))
    (hrec : ∀ d a r d', recur d a = some (some r, d') →
      consistent M a = true →
      consistent M r = true ∧ assignment_complete M r = true) :
    ∀ (values : List Word) (d : DStore) (a : Assignment) (var : Variable)
      (r : Assignment) (d' : DStore),
      btLoop M fuel recur d a var values = some (some r, d') →
      consistent M r = true ∧ assignment_complete M r = true := by
  intro values
  induction values with
  | nil =>
    intro d a var r d' h
    simp [btLoop] at h
  | cons value rest ihv =>
    intro d a var r d' h
    rw [btLoop] at h
    by_cases hc : consistent M (a ++ [(var, value)]) = true
    · rw [if_pos hc] at h
      match hac : ac3 M fuel
          ((M.neighbors var).map fun other => (other, var)) d with
      | none =>
        rw [hac] at h
        exact absurd h (by simp)
      | some (bb, d1) =>
        rw [hac] at h
        simp only at h
        match hbt : recur d1 (a ++ [(var, value)]) with
        | none =>
          rw [hbt] at h
          exact absurd h (by simp)
        | some (some result, d2) =>
          rw [hbt] at h
          simp only at h
          by_cases hne : result ≠ []
          · rw [if_pos hne] at h
            have h1 : r = result := by
              have := (Option.some.inj h)
              exact (Option.some.inj (Prod.mk.injEq _ _ _ _ ▸ this).1).symm
            rw [h1]
            exact hrec _ _ _ _ hbt hc
          · rw [if_neg hne] at h
            exact ihv _ _ _ _ _ h
        | some (none, d2) =>
          rw [hbt] at h
          simp only at h
          exact ihv _ _ _ _ _ h
    · rw [if_neg hc] at h
      exact ihv _ _ _ _ _ h

/-- Any assignment returned by `backtrack` from a consistent start is
consistent and complete. -/
theorem backtrack_sound (M : Crossword) :
    ∀ (fuel : Nat) (d : DStore) (a : Assignment) (r : Assignment)
      (d' : DStore), backtrack M fuel d a = some (some r, d') →
      consistent M a = true →
      consistent M r = true ∧ assignment_complete M r = true := by
  intro fuel
  induction fuel with
  | zero =>
    intro d a r d' h
    simp [backtrack] at h
  | succ n ih =>
    intro d a r d' h ha
    rw [backtrack] at h
    by_cases hcomp : assignment_complete M a = true
    · rw [if_pos hcomp] at h
      have h1 : r = a := by
        have := (Option.some.inj h)
        exact (Option.some.inj (Prod.mk.injEq _ _ _ _ ▸ this).1).symm
      rw [h1]
      exact ⟨ha, hcomp⟩
    · rw [if_neg hcomp] at h
      match hsel : select_unassigned_variable M d a with
      | none =>
        rw [hsel] at h
        exact absurd h (by simp)
      | some var =>
        rw [hsel] at h
        exact btLoop_sound M n _ (fun d1 a1 r1 d1' hh hc =>
          ih d1 a1 r1 d1' hh hc) _ _ _ _ _ _ h

/-- Any assignment returned by `solve` is consistent and complete. -/
theorem solve_sound_core (M : Crossword) (fuel : Nat) (A : Assignment)
    (h : (solve M fuel).map Prod.fst = some (some A)) :
    consistent M A = true ∧ assignment_complete M A = true := by
  unfold solve at h
  match henc : enforce_node_consistency M (initDomains M) with
  | .error e =>
    rw [henc] at h
    exact absurd h (by simp)
  | .ok d1 =>
    rw [henc] at h
    simp only at h
    match hac : ac3 M fuel [] d1 with
    | none =>
      rw [hac] at h
      exact absurd h (by simp)
    | some (b, d2) =>
      rw [hac] at h
      simp only at h
      match hbt : backtrack M fuel d2 [] with
      | none =>
        rw [hbt] at h
        exact absurd h (by simp)
      | some (res, d3) =>
        rw [hbt] at h
        have hres : res = some A := by simpa using h
        rw [hres] at hbt
        exact backtrack_sound M fuel d2 [] A d3 hbt (consistent_nil M)

/-! ### Reading the checks back as properties -/

theorem mem_neighbors {M : Crossword} {x y : Variable} :
    y ∈ M.neighbors x ↔
      y ∈ M.vars ∧ y ≠ x ∧ (M.overlaps x y).isSome := by
  simp [Crossword.neighbors, List.mem_filter]

theorem assignment_complete_lookup {M : Crossword} {a : Assignment}
    (h : assignment_complete M a = true) :
    ∀ v ∈ M.vars, ∃ w, alookup a v = some w := by
  intro v hv
  have hs := List.all_eq_true.mp h v hv
  exact Option.isSome_iff_exists.mp (by simpa using hs)

theorem consistent_parts {M : Crossword} {a : Assignment}
    (h : consistent M a = true) :
    (a.map Prod.snd).dedup.length = a.length
    ∧ ∀ p ∈ a, p.2.length = p.1.length
      ∧ ∀ v2 ∈ M.neighbors p.1, ∀ w2, alookup a v2 = some w2 →
          p.2.getD ((M.overlaps p.1 v2).getD (0, 0)).1 ' '
            = w2.getD ((M.overlaps p.1 v2).getD (0, 0)).2 ' ' := by
  rw [consistent] at h
  by_cases hd : (a.map Prod.snd).dedup.length ≠ a.length
  · rw [if_pos hd] at h
    exact absurd h (by simp)
  · rw [if_neg hd] at h
    refine ⟨of_not_not hd, ?_⟩
    intro p hp
    have hall := List.all_eq_true.mp h p hp
    rw [Bool.and_eq_true] at hall
    refine ⟨of_decide_eq_true hall.1, ?_⟩
    intro v2 hv2 w2 hw2
    have h2 := List.all_eq_true.mp hall.2 v2 hv2
    rw [hw2] at h2
    simpa using h2

/-- The duplicate check of `consistent` means the assigned words are pairwise
distinct. -/
theorem map_snd_nodup {a : Assignment}
    (h : (a.map Prod.snd).dedup.length = a.length) :
    (a.map Prod.snd).Nodup := by
  have hsub := List.dedup_sublist (a.map Prod.snd)
  have heq : (a.map Prod.snd).dedup = a.map Prod.snd :=
    hsub.eq_of_length (by rw [h, List.length_map])
  exact List.dedup_eq_self.mp heq

/-! ### The variable selector picks a variable with an empty domain when one
is unassigned -/

/-- The head of a stable sort is minimal for a total, transitive relation. -/
theorem insertionSort_head_le {α : Type _} (r : α → α → Prop) [DecidableRel r]
    (htrans : ∀ a b c, r a b → r b c → r a c)
    (htotal : ∀ a b, r a b ∨ r b a) (l : List α) {v : α} (hv : v ∈ l) :
    ∃ u, (l.insertionSort r).head? = some u ∧ (u = v ∨ r u v) := by
  have hvs : v ∈ l.insertionSort r :=
    (List.perm_insertionSort r l).mem_iff.mpr hv
  have hne : l.insertionSort r ≠ [] := by
    intro hc
    rw [hc] at hvs
    exact absurd hvs (List.not_mem_nil v)
  obtain ⟨u, tail, hcons⟩ := List.exists_cons_of_ne_nil hne
  refine ⟨u, by rw [hcons]; rfl, ?_⟩
  have hsorted : List.Sorted r (l.insertionSort r) :=
    @List.sorted_insertionSort α r _ ⟨htotal⟩ ⟨htrans⟩ l
  rw [hcons] at hsorted hvs
  rcases List.mem_cons.mp hvs with he | hm
  · exact Or.inl he.symm
  · exact Or.inr ((List.pairwise_cons.mp hsorted).1 v hm)

theorem select_empty_domain {M : Crossword} {d : DStore} {a : Assignment}
    {v : Variable} (hv : v ∈ M.vars) (hun : alookup a v = none)
    (hd : d v = []) :
    ∃ u, select_unassigned_variable M d a = some u ∧ d u = [] := by
  have htrans : ∀ x y z : Variable,
      ((d x).length < (d y).length ∨
        ((d x).length = (d y).length ∧
          (M.neighbors y).length ≤ (M.neighbors x).length)) →
      ((d y).length < (d z).length ∨
        ((d y).length = (d z).length ∧
          (M.neighbors z).length ≤ (M.neighbors y).length)) →
      ((d x).length < (d z).length ∨
        ((d x).length = (d z).length ∧
          (M.neighbors z).length ≤ (M.neighbors x).length)) := by
    intro x y z h1 h2
    rcases h1 with h1 | ⟨h1e, h1d⟩ <;> rcases h2 with h2 | ⟨h2e, h2d⟩
    · exact Or.inl (h1.trans h2)
    · exact Or.inl (h2e ▸ h1)
    · exact Or.inl (h1e ▸ h2)
    · exact Or.inr ⟨h1e.trans h2e, h2d.trans h1d⟩
  have htotal : ∀ x y : Variable,
      ((d x).length < (d y).length ∨
        ((d x).length = (d y).length ∧
          (M.neighbors y).length ≤ (M.neighbors x).length)) ∨
      ((d y).length < (d x).length ∨
        ((d y).length = (d x).length ∧
          (M.neighbors x).length ≤ (M.neighbors y).length)) := by
    intro x y
    rcases Nat.lt_trichotomy (d x).length (d y).length with h | h | h
    · exact Or.inl (Or.inl h)
    · rcases Nat.le_total (M.neighbors y).length (M.neighbors x).length with
        hm | hm
      · exact Or.inl (Or.inr ⟨h, hm⟩)
      · exact Or.inr (Or.inr ⟨h.symm, hm⟩)
    · exact Or.inr (Or.inl h)
  have hvun : v ∈ M.vars.filter (fun x => (alookup a x).isNone) := by
    rw [List.mem_filter]
    exact ⟨hv, by simp [hun]⟩
  obtain ⟨u, hh, hc⟩ := insertionSort_head_le
    (fun x y =>
      (d x).length < (d y).length ∨
        ((d x).length = (d y).length ∧
          (M.neighbors y).length ≤ (M.neighbors x).length))
    htrans htotal (M.vars.filter (fun x => (alookup a x).isNone)) hvun
  refine ⟨u, ?_, ?_⟩
  · rw [select_unassigned_variable]
    exact hh
  · rcases hc with he | hrel
    · rw [he]
      exact hd
    · rcases hrel with hlt | ⟨heq, _⟩
      · rw [hd] at hlt
        exact absurd hlt (by simp)
      · rw [hd] at heq
        exact List.length_eq_zero.mp heq

/-- With an unassigned empty-domain variable, `backtrack` returns the
no-solution marker at once, leaving the store untouched, for any positive
fuel — in particular fuel `1`, which rules out any recursive call. -/
theorem backtrack_empty_domain (M : Crossword) (d : DStore) (fuel : Nat)
    {v : Variable} (hv : v ∈ M.vars) (hd : d v = []) :
    backtrack M (fuel + 1) d [] = some (none, d) := by
  rw [backtrack]
  have hcomp : ¬ assignment_complete M [] = true := by
    intro hc
    have := List.all_eq_true.mp hc v hv
    simp [alookup] at this
  rw [if_neg hcomp]
  obtain ⟨u, hsel, hdu⟩ := @select_empty_domain M d [] v hv rfl hd
  rw [hsel]
  simp only
  rw [hdu]
  rfl

theorem M1w_wf : M1w.WF := by
  refine ⟨by decide, by decide, fun x => rfl, ?_, ?_, ?_⟩ <;>
    intro x y i j h <;> exact absurd h (by simp [M1w, noOv])

theorem M9w_wf : M9w.WF := by
  refine ⟨by decide, by decide, fun x => rfl, ?_, ?_, ?_⟩ <;>
    intro x y i j h <;> exact absurd h (by simp [M9w, noOv])

/-! ### The AC-3 queue need not drain

On `Mdiv` the three crossing slots have pairwise different lengths, so after
node consistency their domains are disjoint.  Revising any of the three arcs
of the cycle finds an unsupported word of the other domain, reports a
revision, removes nothing (the word is not in the revised domain), and
re-enqueues the next arc of the cycle — forever. -/

theorem ac3Loop_cycle :
    ∀ (fuel : Nat) (s : DStore) (P : List (Variable × Variable))
      (arc : Variable × Variable),
      s varX = [wBB] → s varZ3 = [wCCC] → s varW4 = [wDDDD] →
      (arc = (varW4, varZ3) ∨ arc = (varX, varW4) ∨ arc = (varZ3, varX)) →
      ac3Loop Mdiv fuel (P ++ [arc]) s = none := by
  intro fuel
  induction fuel with
  | zero => intro s P arc _ _ _ _; rfl
  | succ n ih =>
    intro s P arc hB hC hD harc
    rcases harc with h | h | h <;> subst h <;>
      rw [ac3Loop, List.getLast?_concat] <;>
      simp only [List.dropLast_concat]
    · have step : revise Mdiv s varW4 varZ3
          = (true, s.update varW4 [wDDDD]) := by
        simp only [revise]
        rw [if_pos (show varZ3 ∈ Mdiv.neighbors varW4 by decide), hC, hD]
        rfl
      rw [step]
      simp only [DStore.update_self]
      rw [if_neg (show ¬ ([wDDDD] : List Word) = [] by decide)]
      exact ih (s.update varW4 [wDDDD]) P (varX, varW4)
        (by rw [DStore.update_other _ _ _ (by decide)]; exact hB)
        (by rw [DStore.update_other _ _ _ (by decide)]; exact hC)
        (DStore.update_self _ _ _)
        (Or.inr (Or.inl rfl))
    · have step : revise Mdiv s varX varW4
          = (true, s.update varX [wBB]) := by
        simp only [revise]
        rw [if_pos (show varW4 ∈ Mdiv.neighbors varX by decide), hB, hD]
        rfl
      rw [step]
      simp only [DStore.update_self]
      rw [if_neg (show ¬ ([wBB] : List Word) = [] by decide)]
      exact ih (s.update varX [wBB]) P (varZ3, varX)
        (DStore.update_self _ _ _)
        (by rw [DStore.update_other _ _ _ (by decide)]; exact hC)
        (by rw [DStore.update_other _ _ _ (by decide)]; exact hD)
        (Or.inr (Or.inr rfl))
    · have step : revise Mdiv s varZ3 varX
          = (true, s.update varZ3 [wCCC]) := by
        simp only [revise]
        rw [if_pos (show varX ∈ Mdiv.neighbors varZ3 by decide), hB, hC]
        rfl
      rw [step]
      simp only [DStore.update_self]
      rw [if_neg (show ¬ ([wCCC] : List Word) = [] by decide)]
      exact ih (s.update varZ3 [wCCC]) P (varW4, varZ3)
        (by rw [DStore.update_other _ _ _ (by decide)]; exact hB)
        (DStore.update_self _ _ _)
        (by rw [DStore.update_other _ _ _ (by decide)]; exact hD)
        (Or.inl rfl)

/-- On `Mdiv`, `solve` never returns, whatever the fuel: after node
consistency, the full AC-3 queue enters the three-arc cycle and never
drains.  (In the source this is an infinite `while` loop.) -/
theorem solve_never_returns_on_Mdiv : ∀ fuel, solve Mdiv fuel = none := by
  intro fuel
  unfold solve
  rw [show enforce_node_consistency Mdiv (initDomains Mdiv) = .ok dDiv
    from rfl]
  simp only
  have harcs : ac3 Mdiv fuel [] dDiv
      = ac3Loop Mdiv fuel
          ((allArcs Mdiv).dropLast ++ [(varW4, varZ3)]) dDiv := by
    conv_lhs =>
      rw [show ac3 Mdiv fuel [] dDiv
        = ac3Loop Mdiv fuel (allArcs Mdiv) dDiv from rfl]
      rw [show allArcs Mdiv = (allArcs Mdiv).dropLast ++ [(varW4, varZ3)]
        from by decide]
  rw [harcs, ac3Loop_cycle fuel dDiv _ _ rfl rfl rfl (Or.inl rfl)]

/-! ### The claims -/

/-- Claim C1: whenever `solve` (node consistency, then AC-3, then `backtrack`
from the empty assignment) returns an assignment rather than `None`, that
assignment maps every variable to a word, the assigned words are pairwise
distinct, each word's length equals its variable's length, and every
overlapping pair of variables agrees on the characters at the registered
overlap indices. -/
theorem solve_result_valid (M : Crossword) (hwf : M.WF) (fuel : Nat)
    (A : Assignment) (h : (solve M fuel).map Prod.fst = some (some A)) :
    (∀ v ∈ M.vars, ∃ w, alookup A v = some w)
    ∧ (A.map Prod.snd).Nodup
    ∧ (∀ p ∈ A, p.2.length = p.1.length)
    ∧ (∀ v1 v2 i j w1 w2, v1 ∈ M.vars → v2 ∈ M.vars →
        M.overlaps v1 v2 = some (i, j) →
        alookup A v1 = some w1 → alookup A v2 = some w2 →
        i < w1.length ∧ j < w2.length ∧ w1.getD i ' ' = w2.getD j ' ') := by
  obtain ⟨hcons, hcomp⟩ := solve_sound_core M fuel A h
  obtain ⟨hdup, hprops⟩ := consistent_parts hcons
  refine ⟨assignment_complete_lookup hcomp, map_snd_nodup hdup, ?_, ?_⟩
  · intro p hp
    exact (hprops p hp).1
  · intro v1 v2 i j w1 w2 hv1 hv2 hov hw1 hw2
    have hp1 : (v1, w1) ∈ A := alookup_mem hw1
    have hp2 : (v2, w2) ∈ A := alookup_mem hw2
    have hne : v2 ≠ v1 := by
      intro he
      rw [he, hwf.selfNone v1] at hov
      exact absurd hov (by simp)
    have hnb : v2 ∈ M.neighbors v1 :=
      mem_neighbors.mpr ⟨hv2, hne, by rw [hov]; rfl⟩
    have hchar := (hprops _ hp1).2 v2 hnb w2 hw2
    rw [hov] at hchar
    have hl1 : w1.length = v1.length := (hprops _ hp1).1
    have hl2 : w2.length = v2.length := (hprops _ hp2).1
    refine ⟨?_, ?_, ?_⟩
    · rw [hl1]
      exact hwf.fstLt v1 v2 i j hov
    · rw [hl2]
      exact hwf.sndLt v1 v2 i j hov
    · simpa using hchar

/-- Witness for C1: on the one-variable model `M1w`, `solve` returns the
assignment `[(varX, "ab")]`, and the theorem applies to it. -/
theorem solve_result_valid_witness :
    (solve M1w 5).map Prod.fst = some (some [(varX, wAB)])
    ∧ ∃ w, alookup [(varX, wAB)] varX = some w :=
  ⟨rfl,
    (solve_result_valid M1w M1w_wf 5 [(varX, wAB)] rfl).1 varX
      (by decide)⟩

/-- Claim C2 (code bug): the spec requires that whenever a valid total
assignment exists in the original domains, `solve` finds some valid
assignment.  On `M2cex` (vocabulary `{ab, ca}`, constraint `X[0] == Y[1]`)
the assignment `X = ab, Y = ca` is complete, consistent and drawn from the
vocabulary, yet `solve` returns the no-solution marker: the flawed `revise`
deletes the solution words from the wrong domains during the initial AC-3
pass. -/
theorem solve_misses_existing_solution :
    assignment_complete M2cex [(varX, wAB), (varY, wCA)] = true
    ∧ consistent M2cex [(varX, wAB), (varY, wCA)] = true
    ∧ wAB ∈ M2cex.words ∧ wCA ∈ M2cex.words
    ∧ (solve M2cex 10).map Prod.fst = some none :=
  ⟨rfl, rfl, by decide, by decide, rfl⟩

/-- Claim C3 (code bug): `revise(x, y)` is documented (docstring and spec) to
remove from `domain(x)` the words of `domain(x)` with no support in
`domain(y)`, returning whether a removal occurred.  With
`domain(X) = {ab}`, `domain(Y) = {cd}` and overlap `(0, 0)`, the word `ab`
has no support (`a ≠ c`), so the claim demands its removal and a `True`
result meaning a removal happened; the code instead removes nothing (it
subtracts the unsupported words of `domain(Y)` from `domain(X)`) while still
returning `True`. -/
theorem revise_removes_wrong_side :
    (revise M3cex d3cex varX varY).1 = true
    ∧ (revise M3cex d3cex varX varY).2 varX = [wAB]
    ∧ (revise M3cex d3cex varX varY).2 varY = [wCD]
    ∧ (d3cex varY).all
        (fun wy => !(wAB.getD 0 ' ' = wy.getD 0 ' ' : Bool)) = true :=
  ⟨rfl, rfl, rfl, rfl⟩

/-- Claim C4 (code bug): the spec requires a failing `backtrack` call to
restore every domain to its value at entry.  Starting from
`domain(X) = {ab}`, `domain(Y) = {ab, dd}` on `M2cex`, `backtrack` returns the
no-solution marker but leaves `domain(Y) = {dd}`: the scoped AC-3 call mutated
the store in place and nothing restores it. -/
theorem backtrack_fails_without_restoring_domains :
    d4cex varY = [wAB, wDD]
    ∧ (backtrack M2cex 10 d4cex []).map
        (fun r => (r.1, r.2 varX, r.2 varY)) = some (none, [wAB], [wDD]) :=
  ⟨rfl, rfl⟩

/-- Claim C5 (code bug): the spec says `backtrack` tries candidate values in
the least-constraining-value order computed by `order_domain_values`.  The
code iterates directly over `self.domains[var]` and never calls
`order_domain_values`; indeed on `M5cex` the call
`order_domain_values(X, {})` raises `AttributeError` (the source reads the
nonexistent attribute `crossword.overlap`), while `backtrack` happily
succeeds on the same store — so the values tried cannot equal its output. -/
theorem backtrack_skips_value_ordering :
    order_domain_values M5cex d5cex varX []
      = .error "AttributeError: Crossword object has no attribute overlap"
    ∧ (backtrack M5cex 10 d5cex []).map Prod.fst
      = some (some [(varX, wAA), (varY, wAB)]) :=
  ⟨rfl, rfl⟩

/-- Claim C6 (code bug): the spec says node consistency is idempotent — a
second run terminates normally and leaves domains unchanged.  On `M6cex`
(one length-2 variable, vocabulary `{ab, c}`) the first run succeeds leaving
`{ab}`, but the second run raises `KeyError`: the code calls `set.remove` on
the word `c` that the first run already removed. -/
theorem node_consistency_second_run_raises :
    (enforce_node_consistency M6cex (initDomains M6cex)).map
        (fun d => d varX) = .ok [wAB]
    ∧ ((enforce_node_consistency M6cex (initDomains M6cex)).bind
        (fun d => enforce_node_consistency M6cex d)) = .error () :=
  ⟨rfl, rfl⟩

/-- Claim C7: the AC-3 loop returns `False` immediately — processing no
further arc — exactly when a call to `revise` reports a revision and leaves
the revised variable's domain empty, and returns `True` exactly when the
work-queue drains: terminating runs of the embedded loop coincide with the
runs of the queue process `AC3Trace`, and every `False` return exhibits an
emptied domain. -/
theorem ac3_queue_process (M : Crossword) :
    (∀ fuel arcs d b d', ac3Loop M fuel arcs d = some (b, d') →
      AC3Trace M arcs d b d')
    ∧ (∀ arcs d b d', AC3Trace M arcs d b d' →
        ∃ fuel, ac3Loop M fuel arcs d = some (b, d'))
    ∧ (∀ fuel arcs d d', ac3Loop M fuel arcs d = some (false, d') →
        ∃ x, d' x = []) :=
  ⟨ac3Loop_toTrace M, trace_toAc3Loop M, ac3Loop_false_empty M⟩

/-- Witness for C7: on the empty queue the loop stops at once with `True`,
and the theorem turns that run into a process trace and back. -/
theorem ac3_queue_process_witness :
    AC3Trace M1w [] (initDomains M1w) true (initDomains M1w)
    ∧ ∃ fuel, ac3Loop M1w fuel [] (initDomains M1w)
        = some (true, initDomains M1w) :=
  ⟨(ac3_queue_process M1w).1 1 [] (initDomains M1w) true (initDomains M1w)
      rfl,
    (ac3_queue_process M1w).2.1 [] (initDomains M1w) true (initDomains M1w)
      (AC3Trace.drain (initDomains M1w))⟩

/-- Claim C8: AC-3 is monotone — with or without an explicit arc list, every
variable's domain after a terminating `ac3` call is a subset of its domain
before the call. -/
theorem ac3_shrinks_domains (M : Crossword) (fuel : Nat)
    (arcs : List (Variable × Variable)) (d : DStore) (b : Bool) (d' : DStore)
    (h : ac3 M fuel arcs d = some (b, d')) : ∀ v, d' v ⊆ d v :=
  ac3_subset M fuel arcs d b d' h

/-- Witness for C8: a concrete full `ac3` run on `M3cex`, instantiating the
theorem at `varX`. -/
theorem ac3_shrinks_domains_witness :
    ac3 M3cex 5 [] d3cex
      = some (true, (d3cex.update varY [wCD]).update varX [wAB])
    ∧ ((d3cex.update varY [wCD]).update varX [wAB]) varX ⊆ d3cex varX :=
  ⟨rfl,
    ac3_shrinks_domains M3cex 5 [] d3cex true
      ((d3cex.update varY [wCD]).update varX [wAB]) rfl varX⟩

/-- Supporting analysis for the scenario-B claim, terminating runs only: on
any well-formed model with a variable of required length 5 while no
vocabulary word has length 5, node consistency leaves that variable's domain
empty; whenever `solve` does return, it returns the no-solution marker; and
the `backtrack` call made after the AC-3 phase returns `None` already at
fuel 1, i.e. without any recursive `backtrack` call.  The claim itself fails
because `solve` need not return at all — see `scenario_b_can_hang`. -/
theorem length_five_unmatched_fails_fast (M : Crossword) (hwf : M.WF)
    (v : Variable) (hv : v ∈ M.vars) (h5 : v.length = 5)
    (hw : ∀ w ∈ M.words, w.length ≠ 5) :
    (∀ d1, enforce_node_consistency M (initDomains M) = .ok d1 → d1 v = [])
    ∧ (∀ fuel r, solve M fuel = some r → r.1 = none)
    ∧ (∀ fuel d1 b d2,
        enforce_node_consistency M (initDomains M) = .ok d1 →
        ac3 M fuel [] d1 = some (b, d2) →
        backtrack M 1 d2 [] = some (none, d2)) := by
  obtain ⟨d1', hrun, hmem⟩ := enc_initDomains M hwf.wordsNodup hwf.varsNodup
  have hfilter :
      M.words.filter (fun w => decide (w.length = v.length)) = [] := by
    refine List.filter_eq_nil_iff.mpr ?_
    intro w hwm
    simp only [decide_eq_true_eq]
    intro hlen
    exact hw w hwm (h5 ▸ hlen)
  have hd1v : d1' v = [] := by
    rw [hmem v hv]
    exact hfilter
  have part1 : ∀ d1, enforce_node_consistency M (initDomains M) = .ok d1 →
      d1 v = [] := by
    intro d1 h
    rw [hrun] at h
    injection h with h
    rw [← h]
    exact hd1v
  refine ⟨part1, ?_, ?_⟩
  · intro fuel r hs
    unfold solve at hs
    rw [hrun] at hs
    simp only at hs
    match hac : ac3 M fuel [] d1' with
    | none =>
      rw [hac] at hs
      exact absurd hs (by simp)
    | some (b, d2) =>
      rw [hac] at hs
      simp only at hs
      have hd2v : d2 v = [] := by
        refine List.subset_nil.mp ?_
        rw [← hd1v]
        exact ac3_subset M fuel [] d1' b d2 hac v
      match fuel with
      | 0 => exact absurd hs (by simp [backtrack])
      | m + 1 =>
        rw [backtrack_empty_domain M d2 m hv hd2v] at hs
        have := Option.some.inj hs
        rw [← this]
  · intro fuel d1 b d2 henc hac
    have hd1 : d1' = d1 := by
      rw [hrun] at henc
      injection henc
    rw [← hd1] at hac
    have hd2v : d2 v = [] := by
      refine List.subset_nil.mp ?_
      rw [← hd1v]
      exact ac3_subset M fuel [] d1' b d2 hac v
    exact backtrack_empty_domain M d2 0 hv hd2v

/-- Concrete instance of the fail-fast behaviour: on the scenario-B model
`M9w` (length-5 variable `varV5`, only length-2 words, no overlaps), `solve`
does terminate and concretely returns the no-solution marker. -/
theorem length_five_unmatched_fails_fast_witness :
    (solve M9w 10).map Prod.fst = some none := by
  have h := (length_five_unmatched_fails_fast M9w M9w_wf varV5 (by decide)
    rfl (by decide)).2.1
  obtain ⟨r, hr⟩ : ∃ r, solve M9w 10 = some r := ⟨_, rfl⟩
  rw [hr]
  show some r.1 = some none
  rw [h 10 r hr]

/-- Claim C9 (code bug): the claim says that on a puzzle model containing a
variable of required length 5 while the vocabulary has no word of length 5,
node consistency empties that variable's domain (true — third conjunct) and
`solve` returns the no-solution marker with `backtrack` returning at its
first invocation.  On the scenario-B model `Mdiv` (length-5 variable `varV5`,
vocabulary of lengths 2, 3, 4 only), `solve` never returns for any fuel:
the buggy `revise` flag cycles the AC-3 work-queue forever, the source's
`while` loop never exits, and `backtrack` is never even reached. -/
theorem scenario_b_can_hang :
    varV5 ∈ Mdiv.vars
    ∧ varV5.length = 5
    ∧ Mdiv.words.all (fun w => decide (w.length ≠ 5)) = true
    ∧ (enforce_node_consistency Mdiv (initDomains Mdiv)).map
        (fun d => d varV5) = .ok []
    ∧ ∀ fuel, solve Mdiv fuel = none :=
  ⟨by decide, rfl, by decide, rfl, solve_never_returns_on_Mdiv⟩

/-- Claim C10: `revise(x, y)` leaves the domain of every variable other than
`x` unchanged; in particular it never mutates `domain(y)`. -/
theorem revise_touches_only_first_domain (M : Crossword) (d : DStore)
    (x y : Variable) {v : Variable} (hv : v ≠ x) :
    (revise M d x y).2 v = d v :=
  revise_store_other M d x y hv

/-- Witness for C10: the concrete `revise` call of the C3 scenario leaves
`domain(Y)` at its old value. -/
theorem revise_touches_only_first_domain_witness :
    varY ≠ varX ∧ (revise M3cex d3cex varX varY).2 varY = d3cex varY :=
  ⟨by decide,
    revise_touches_only_first_domain M3cex d3cex varX varY (by decide)⟩

end CrosswordCSP
